import Mathlib

/-!
Shallow embedding of the validation core of the Manufacturing Data
Integration Tool (src/data_validator.py, with configuration records from
src/xml_parser.py), together with theorems about the claims of the
specification.

Modelling conventions:
* pandas cell values are modeled by the closed variant `Value`
  (null / string / exact rational number); `NaN` and Python `None`
  are both modeled by `Value.null`, matching `pd.isna`.
* A `DataFrame` is a column list plus a list of records indexed by
  position (the default `RangeIndex`), so `df.iterrows()` yields
  positions `0, 1, 2, ...` in order and `df.loc[list]` selects rows in
  the order of the given index list.
* Python `float(x)` coercion is modeled by `coerceNum` (decimal literals
  with optional sign and fraction part); `pd.to_datetime` on ISO dates is
  modeled by `parseDate`.
* Regular expression patterns are modeled as compiled regex syntax trees;
  `re.match` (match at the start of the string, no full anchoring) is
  modeled by `matchAtStart` via Brzozowski derivatives.
* Exceptions that abort `validate_dataframe` (missing columns,
  the division by zero in `_print_summary`) are modeled with `Except`.
-/

namespace MDIT

/-- A dynamically typed cell value (string / number / null), the closed
variant of values that reach the validator from a parsed CSV. -/
inductive Value where
  | null : Value
  | str (s : String) : Value
  | num (q : ℚ) : Value
deriving DecidableEq, Repr

/-- Model of `pd.isna`: true exactly on the null value. -/
def isna : Value → Bool
  | Value.null => true
  | _ => false

/-- A regular expression syntax tree (the fragment needed to model the
patterns of the configuration: characters, wildcard, alternation,
concatenation, Kleene star). -/
inductive Regexp where
  | emp : Regexp
  | eps : Regexp
  | chr (c : Char) : Regexp
  | dot : Regexp
  | alt (a b : Regexp) : Regexp
  | cat (a b : Regexp) : Regexp
  | star (a : Regexp) : Regexp
deriving DecidableEq, Repr

/-- A value stored in a `ValidationRule.parameters` dictionary.  The XML
parser stores numbers for range bounds, strings for everything else;
regex patterns are modeled directly as compiled pattern trees. -/
inductive PValue where
  | num (q : ℚ) : PValue
  | str (s : String) : PValue
  | regex (r : Regexp) : PValue
deriving DecidableEq, Repr

/-- Whether the regular expression accepts the empty string. -/
def Regexp.nullable : Regexp → Bool
  | Regexp.emp => false
  | Regexp.eps => true
  | Regexp.chr _ => false
  | Regexp.dot => false
  | Regexp.alt a b => a.nullable || b.nullable
  | Regexp.cat a b => a.nullable && b.nullable
  | Regexp.star _ => true

/-- Brzozowski derivative of a regular expression by a character. -/
def Regexp.derivc : Regexp → Char → Regexp
  | Regexp.emp, _ => Regexp.emp
  | Regexp.eps, _ => Regexp.emp
  | Regexp.chr d, c => if c = d then Regexp.eps else Regexp.emp
  | Regexp.dot, _ => Regexp.eps
  | Regexp.alt a b, c => Regexp.alt (a.derivc c) (b.derivc c)
  | Regexp.cat a b, c =>
      if a.nullable then Regexp.alt (Regexp.cat (a.derivc c) b) (b.derivc c)
      else Regexp.cat (a.derivc c) b
  | Regexp.star a, c => Regexp.cat (a.derivc c) (Regexp.star a)

/-- Whole-string regular expression matching (full anchoring). -/
def rmatchFull (r : Regexp) : List Char → Bool
  | [] => r.nullable
  | c :: cs => rmatchFull (r.derivc c) cs

/-- Model of Python `re.match`: the pattern matches at the start of the
string, i.e. some (possibly empty) leading part of the string is accepted.
This is deliberately not full-string anchoring. -/
def matchAtStart (r : Regexp) : List Char → Bool
  | [] => r.nullable
  | c :: cs => r.nullable || matchAtStart (r.derivc c) cs

/-- Rule parameter dictionary, as an association list (model of the
Python `dict` held by `ValidationRule.parameters`). -/
abbrev Params := List (String × PValue)

/-- Model of `dict.get`: the value at the first matching key, if any. -/
def pget (ps : Params) (k : String) : Option PValue :=
  (ps.find? (fun kv => kv.1 == k)).map (fun kv => kv.2)

/-- `ValidationRule` from src/xml_parser.py: a rule-type tag and a
parameter dictionary. -/
structure ValidationRule where
  rule_type : String
  parameters : Params
deriving DecidableEq, Repr

/-- `FieldMapping` from src/xml_parser.py. -/
structure FieldMapping where
  source_field : String
  target_field : String
  data_type : String
  required : Bool
  validations : List ValidationRule
deriving DecidableEq, Repr

/-- A dataset-level rule from `get_global_validations`: a rule-type tag
and the raw comma-separated field list. -/
structure GlobalRule where
  rule_type : String
  fields : String
deriving DecidableEq, Repr

/-- One record: an association list from column name to cell value. -/
abbrev Record := List (String × Value)

/-- Model of `row.get(field)` followed by the null checks: a missing key
behaves like a null value (`row.get` returns `None`, and `pd.isna(None)`
holds). -/
def getField (r : Record) (f : String) : Value :=
  match r.find? (fun kv => kv.1 == f) with
  | some kv => kv.2
  | none => Value.null

/-- A DataFrame: the column names and the records, indexed by position
(default `RangeIndex`). -/
structure DataFrame where
  cols : List String
  rows : List Record
deriving DecidableEq, Repr

/-- Render an exact rational (used where Python would render a number
inside an error message). -/
def ratStr (q : ℚ) : String :=
  if q.den = 1 then toString q.num else toString q.num ++ "/" ++ toString q.den

/-- Model of Python `str(value)`. -/
def strOfValue : Value → String
  | Value.null => "None"
  | Value.str s => s
  | Value.num q => ratStr q

/-- Drop leading whitespace characters on both ends of a character list. -/
def trimChars (cs : List Char) : List Char :=
  ((cs.dropWhile Char.isWhitespace).reverse.dropWhile Char.isWhitespace).reverse

/-- Numeric value of a list of decimal digit characters. -/
def digitsToNat (cs : List Char) : ℕ :=
  cs.foldl (fun n c => 10 * n + (c.toNat - 48)) 0

/-- Model of Python `float(s)` on a string: optional sign, decimal
digits with an optional single fraction point (surrounding whitespace
ignored); anything else fails to coerce. -/
def parseNum (s : String) : Option ℚ :=
  let cs := trimChars s.toList
  let sgn : ℚ := match cs with
    | '-' :: _ => -1
    | _ => 1
  let ds := match cs with
    | '-' :: t => t
    | '+' :: t => t
    | _ => cs
  let ip := ds.takeWhile (fun c => c ≠ '.')
  let rest := ds.dropWhile (fun c => c ≠ '.')
  match rest with
  | [] =>
      if ip ≠ [] ∧ ip.all Char.isDigit then some (sgn * (digitsToNat ip : ℚ))
      else none
  | '.' :: fp =>
      if ip.all Char.isDigit ∧ fp.all Char.isDigit ∧ (ip ≠ [] ∨ fp ≠ []) then
        some (sgn * ((digitsToNat ip : ℚ) + (digitsToNat fp : ℚ) / ((10 : ℚ) ^ fp.length)))
      else none
  | _ => none

/-- Model of `float(value)`: numbers coerce to themselves, strings are
parsed, null fails (Python raises `TypeError` on `float(None)` and
`float(nan)` would propagate as a non-number downstream; the validator
only reaches this with non-null values). -/
def coerceNum : Value → Option ℚ
  | Value.null => none
  | Value.num q => some q
  | Value.str s => parseNum s

/-- Model of `pd.to_datetime` on an ISO `YYYY-MM-DD` date string,
encoded as a totally ordered natural number. -/
def parseDate (s : String) : Option ℕ :=
  match (trimChars s.toList).splitOn '-' with
  | [y, m, d] =>
      if y ≠ [] ∧ y.all Char.isDigit ∧ m ≠ [] ∧ m.all Char.isDigit ∧
         d ≠ [] ∧ d.all Char.isDigit then
        let yn := digitsToNat y
        let mn := digitsToNat m
        let dn := digitsToNat d
        if 1 ≤ mn ∧ mn ≤ 12 ∧ 1 ≤ dn ∧ dn ≤ 31 then
          some (yn * 10000 + mn * 100 + dn)
        else none
      else none
  | _ => none

/-- `ValidationError` from src/data_validator.py. -/
structure ValidationError where
  row_index : ℕ
  field_name : String
  field_value : Value
  error_type : String
  error_message : String
deriving DecidableEq, Repr

/-- Build one validation error. -/
def mkErr (idx : ℕ) (field : String) (value : Value) (ty msg : String) :
    ValidationError :=
  { row_index := idx, field_name := field, field_value := value,
    error_type := ty, error_message := msg }

/-- The NUMERIC coercion-failure error of the range rule. -/
def numericErr (idx : ℕ) (field : String) (value : Value) : ValidationError :=
  mkErr idx field value "NUMERIC" (field ++ "=" ++ strOfValue value ++ " is not a valid number")

/-- The DATE_FORMAT coercion-failure error of the date range rule. -/
def dateFormatErr (idx : ℕ) (field : String) (value : Value) : ValidationError :=
  mkErr idx field value "DATE_FORMAT" (field ++ "=" ++ strOfValue value ++ " is not a valid date")

/-- Whether an optional date bound parameter is present and truthy
(Python: `if min_date:` — absent or empty-string bounds are skipped). -/
def boundPresent : Option PValue → Bool
  | none => false
  | some (PValue.str s) => !(s == "")
  | some _ => true

/-- The max-bound half of the range rule: checked only when the min
check did not fire; a non-numeric bound makes the comparison raise
`TypeError`, caught by the same handler as coercion failure (NUMERIC). -/
def rangeMaxCheck (idx : ℕ) (field : String) (value : Value) (q : ℚ)
    (mx : Option PValue) : Option ValidationError :=
  match mx with
  | some (PValue.num m) =>
      if q > m then
        some (mkErr idx field value "RANGE"
          (field ++ "=" ++ ratStr q ++ " exceeds maximum " ++ ratStr m))
      else none
  | some _ => some (numericErr idx field value)
  | none => none

/-- The max-bound half of the date range rule. -/
def dateMaxCheck (idx : ℕ) (field : String) (value : Value) (d : ℕ)
    (mx : Option PValue) : Option ValidationError :=
  match mx with
  | some (PValue.str ms) =>
      if ms == "" then none
      else
        match parseDate ms with
        | none => some (dateFormatErr idx field value)
        | some md =>
            if d > md then
              some (mkErr idx field value "DATE_RANGE"
                (field ++ " date after maximum " ++ ms))
            else none
  | some _ => some (dateFormatErr idx field value)
  | none => none

/-- The `date_range` branch of `_apply_rule`: string values are parsed
(failure: DATE_FORMAT); non-string values are left unparsed, so comparing
them against a parsed bound raises and is caught as DATE_FORMAT whenever
some bound is present. -/
def applyDateRange (idx : ℕ) (field : String) (value : Value) (ps : Params) :
    Option ValidationError :=
  match value with
  | Value.str s =>
      match parseDate s with
      | none => some (dateFormatErr idx field value)
      | some d =>
          match pget ps "min" with
          | some (PValue.str ms) =>
              if ms == "" then dateMaxCheck idx field value d (pget ps "max")
              else
                match parseDate ms with
                | none => some (dateFormatErr idx field value)
                | some md =>
                    if d < md then
                      some (mkErr idx field value "DATE_RANGE"
                        (field ++ " date before minimum " ++ ms))
                    else dateMaxCheck idx field value d (pget ps "max")
          | some _ => some (dateFormatErr idx field value)
          | none => dateMaxCheck idx field value d (pget ps "max")
  | _ =>
      if boundPresent (pget ps "min") || boundPresent (pget ps "max") then
        some (dateFormatErr idx field value)
      else none

/-- The reference product codes hard-coded in the lookup branch of
`_apply_rule` (the per-(table, column) cache is populated but never
read, so it is not modeled). -/
def validProducts : List String := ["PROD-A1", "PROD-B2", "PROD-C3", "PROD-D4"]

/-- Render a parameter value inside an error message. -/
def pvalStr : Option PValue → String
  | none => "None"
  | some (PValue.str s) => s
  | some (PValue.num q) => ratStr q
  | some (PValue.regex _) => "pattern"

/-- `DataValidator._apply_rule`: apply a single validation rule to one
field value, returning at most one error.  The branches mirror the
`elif` chain of the source. -/
def applyRule (idx : ℕ) (field : String) (value : Value) (rule : ValidationRule) :
    Option ValidationError :=
  if rule.rule_type == "not_null" then
    if isna value || String.mk (trimChars (strOfValue value).toList) == "" then
      some (mkErr idx field value "NOT_NULL" (field ++ " cannot be null"))
    else none
  else if rule.rule_type == "range" then
    match coerceNum value with
    | none => some (numericErr idx field value)
    | some q =>
        match pget rule.parameters "min" with
        | some (PValue.num m) =>
            if q < m then
              some (mkErr idx field value "RANGE"
                (field ++ "=" ++ ratStr q ++ " below minimum " ++ ratStr m))
            else rangeMaxCheck idx field value q (pget rule.parameters "max")
        | some _ => some (numericErr idx field value)
        | none => rangeMaxCheck idx field value q (pget rule.parameters "max")
  else if rule.rule_type == "regex" then
    match pget rule.parameters "pattern" with
    | some (PValue.regex p) =>
        if matchAtStart p (strOfValue value).toList then none
        else
          some (mkErr idx field value "REGEX"
            (field ++ "=" ++ strOfValue value ++ " does not match required format: "
              ++ pvalStr (pget rule.parameters "description")))
    | _ => none
  else if rule.rule_type == "date_range" then
    applyDateRange idx field value rule.parameters
  else if rule.rule_type == "lookup" then
    if pget rule.parameters "column" == some (PValue.str "ProductCode") &&
       !(validProducts.contains (strOfValue value)) then
      some (mkErr idx field value "LOOKUP"
        (field ++ "=" ++ strOfValue value ++ " not found in "
          ++ pvalStr (pget rule.parameters "table")))
    else none
  else none

/-- The errors contributed by one field mapping to one row
(the body of the mapping loop of `_validate_row`). -/
def fieldErrors (idx : ℕ) (row : Record) (m : FieldMapping) : List ValidationError :=
  let value := getField row m.source_field
  if m.required && isna value then
    [mkErr idx m.source_field value "REQUIRED_FIELD_MISSING"
      ("Required field " ++ m.source_field ++ " is empty")]
  else if isna value && !m.required then []
  else m.validations.filterMap (applyRule idx m.source_field value)

/-- `DataValidator._validate_row`: all errors of one row, in schema
order. -/
def validateRow (mappings : List FieldMapping) (idx : ℕ) (row : Record) :
    List ValidationError :=
  (mappings.map (fieldErrors idx row)).flatten

/-- The mutable bookkeeping of a `DataValidator` during one run. -/
structure VState where
  errors : List ValidationError
  valid_rows : List ℕ
  invalid_rows : List ℕ
deriving DecidableEq, Repr

/-- One iteration of the row loop of `validate_dataframe`. -/
def stepRow (mappings : List FieldMapping) (st : VState) (idx : ℕ) (row : Record) :
    VState :=
  let rowErrors := validateRow mappings idx row
  if rowErrors.isEmpty then
    { st with valid_rows := st.valid_rows ++ [idx] }
  else
    { st with invalid_rows := st.invalid_rows ++ [idx],
              errors := st.errors ++ rowErrors }

/-- The row loop of `validate_dataframe`, starting at index `idx`. -/
def rowPhaseAux (mappings : List FieldMapping) (idx : ℕ) :
    List Record → VState → VState
  | [], st => st
  | r :: rs, st => rowPhaseAux mappings (idx + 1) rs (stepRow mappings st idx r)

/-- The full row-by-row phase of `validate_dataframe` from the freshly
reset state. -/
def rowPhase (mappings : List FieldMapping) (rows : List Record) : VState :=
  rowPhaseAux mappings 0 rows { errors := [], valid_rows := [], invalid_rows := [] }

/-- The duplicate key of one row for a duplicate check rule. -/
def rowKey (fields : List String) (r : Record) : List Value :=
  fields.map (getField r)

/-- `df.duplicated(subset=fields, keep=False)`: the positions whose key
occurs at least twice in the batch, in batch order. -/
def dupIndices (fields : List String) (rows : List Record) : List ℕ :=
  let keys := rows.map (rowKey fields)
  (List.range rows.length).filter
    (fun i => 2 ≤ (keys.filter (fun k => k == keys.getD i [])).length)

/-- The body of the demotion loop of `_run_global_validations` for one
duplicate index. -/
def dupStep (fields : List String) (st : VState) (idx : ℕ) : VState :=
  if st.invalid_rows.contains idx then st
  else
    { invalid_rows := st.invalid_rows ++ [idx],
      valid_rows := st.valid_rows.erase idx,
      errors := st.errors ++
        [mkErr idx (String.intercalate "," fields) (Value.str "multiple")
          "DUPLICATE" ("Duplicate combination of " ++ String.intercalate "," fields)] }

/-- One `duplicate_check` rule over the whole batch. -/
def runDupCheck (fields : List String) (rows : List Record) (st : VState) : VState :=
  (dupIndices fields rows).foldl (dupStep fields) st

/-- Split the raw comma-separated field list of a dataset rule
(Python `rule['fields'].split(',')`). -/
def splitFields (s : String) : List String :=
  (s.toList.splitOn ',').map String.mk

/-- `DataValidator._run_global_validations`: every `duplicate_check`
rule demotes the duplicate rows of the batch. -/
def runGlobalValidations (gvs : List GlobalRule) (rows : List Record) (st : VState) :
    VState :=
  gvs.foldl
    (fun st rule =>
      if rule.rule_type == "duplicate_check" then
        runDupCheck (splitFields rule.fields) rows st
      else st) st

/-- The errors raised by `validate_dataframe` when it aborts. -/
inductive FatalError where
  | missingCols (missing : List String) : FatalError
  | zeroDivision : FatalError
deriving DecidableEq, Repr

/-- `DataValidator._validate_columns`: the declared source columns that
are structurally missing as columns of the input (set difference). -/
def missingColumns (mappings : List FieldMapping) (cols : List String) : List String :=
  ((mappings.map (fun m => m.source_field)).filter (fun c => !(cols.contains c))).dedup

/-- `DataValidator._print_summary`: divides the valid and invalid counts
by the total count, so a zero total raises `ZeroDivisionError`. -/
def printSummary (total valid invalid : ℕ) : Except FatalError Unit :=
  if total = 0 then Except.error FatalError.zeroDivision
  else Except.ok ()

/-- `df.loc[idxs]`: the rows selected by an index list, in the order of
the list (with a final `.copy()`, which is the identity on values). -/
def selectRows (rows : List Record) (idxs : List ℕ) : List Record :=
  idxs.filterMap (fun i => rows.get? i)

/-- The outcome of a completed `validate_dataframe` call: the two
selected DataFrames together with the final validator state. -/
structure Outcome where
  valid_df : List Record
  invalid_df : List Record
  state : VState
deriving DecidableEq, Repr

/-- `DataValidator.validate_dataframe`: column check, row phase, global
phase, split, summary. -/
def validate_dataframe (mappings : List FieldMapping) (gvs : List GlobalRule)
    (df : DataFrame) : Except FatalError Outcome :=
  let missing := missingColumns mappings df.cols
  if missing.isEmpty then
    let st := rowPhase mappings df.rows
    let st2 := runGlobalValidations gvs df.rows st
    let vdf := selectRows df.rows st2.valid_rows
    let idf := selectRows df.rows st2.invalid_rows
    match printSummary df.rows.length vdf.length idf.length with
    | Except.error e => Except.error e
    | Except.ok _ => Except.ok { valid_df := vdf, invalid_df := idf, state := st2 }
  else Except.error (FatalError.missingCols missing)

/-! ### Rule constructors used in the theorem statements -/

/-- A range rule carrying the supplied numeric bounds (as the XML parser
builds it: each bound present in the dictionary only when supplied). -/
def rangeRule (mi ma : Option ℚ) : ValidationRule :=
  { rule_type := "range",
    parameters :=
      (match mi with
        | some m => [("min", PValue.num m)]
        | none => []) ++
      (match ma with
        | some m => [("max", PValue.num m)]
        | none => []) }

/-- A regex rule carrying the pattern parameter, or none at all. -/
def regexRule : Option Regexp → ValidationRule
  | some p => { rule_type := "regex", parameters := [("pattern", PValue.regex p)] }
  | none => { rule_type := "regex", parameters := [] }

/-- A lookup rule carrying the table and column parameters. -/
def lookupRule (table column : String) : ValidationRule :=
  { rule_type := "lookup",
    parameters := [("table", PValue.str table), ("column", PValue.str column)] }

/-- Modelled from the spec: the reference-value provider of section 6,
which resolves a (table, column) pair to the set of valid stringified
values.  The only reference set the program carries is the demo
product-code set, keyed by the column name; no other pair resolves. -/
def specRefSet (_table column : String) : Option (List String) :=
  if column == "ProductCode" then some validProducts else none

/-- Modelled from the spec: a Lookup rule fails for a stringified value
when the provider resolves the (table, column) pair to a set not
containing the value, and also when the provider fails to resolve the
pair (spec section 6: failure to resolve a table is surfaced as a
LOOKUP failure for the affected records). -/
def specLookupFails (table column v : String) : Bool :=
  match specRefSet table column with
  | some s => !(s.contains v)
  | none => true

/-! ### Concrete example configurations and batches -/

/-- Example mapping: field a, required, no field rules. -/
def mapA : FieldMapping :=
  { source_field := "a", target_field := "a", data_type := "string",
    required := true, validations := [] }

/-- Example mapping: field b, optional, no field rules. -/
def mapB : FieldMapping :=
  { source_field := "b", target_field := "b", data_type := "string",
    required := false, validations := [] }

/-- Example schema: field a required, field b optional, no field rules. -/
def exMappings : List FieldMapping := [mapA, mapB]

/-- Example dataset rules: one duplicate check on field b. -/
def exGvs : List GlobalRule :=
  [{ rule_type := "duplicate_check", fields := "b" }]

/-- Example input columns. -/
def exCols : List String := ["a", "b"]

/-- Example batch of three records: record 1 misses required field a;
records 0 and 2 share the same b value (a duplicate pair). -/
def exDF : DataFrame :=
  { cols := ["a", "b"],
    rows := [[("a", Value.str "x"), ("b", Value.str "k")],
             [("a", Value.null), ("b", Value.str "z")],
             [("a", Value.str "y"), ("b", Value.str "k")]] }

/-- Example record with a null in the required field a. -/
def exRow : Record := [("a", Value.null), ("b", Value.str "z")]

/-- The outcome computed on the example batch (used by witnesses). -/
def exOut : Outcome :=
  (validate_dataframe exMappings exGvs exDF).toOption.getD
    { valid_df := [], invalid_df := [],
      state := { errors := [], valid_rows := [], invalid_rows := [] } }

/-- Invariant of the row loop at next index `bound`: both index lists
are bounded, strictly sorted, and mutually disjoint. -/
def GoodSt (bound : ℕ) (st : VState) : Prop :=
  (∀ j ∈ st.valid_rows, j < bound) ∧ (∀ j ∈ st.invalid_rows, j < bound) ∧
  List.Sorted (fun a b => a < b) st.valid_rows ∧
  List.Sorted (fun a b => a < b) st.invalid_rows ∧
  (∀ j, j ∈ st.valid_rows → j ∈ st.invalid_rows → False)

/-- The two index lists partition the range below `n` and hold no
duplicate entries. -/
def Partitioned (n : ℕ) (st : VState) : Prop :=
  (∀ i, (i ∈ st.valid_rows ∨ i ∈ st.invalid_rows) ↔ i < n) ∧
  (∀ i, i ∈ st.valid_rows → i ∈ st.invalid_rows → False) ∧
  st.valid_rows.Nodup ∧ st.invalid_rows.Nodup

/-! ### Reduction lemmas for the rule dispatcher -/

theorem applyRule_range (idx : ℕ) (f : String) (v : Value) (ps : Params) :
    applyRule idx f v { rule_type := "range", parameters := ps } =
      (match coerceNum v with
        | none => some (numericErr idx f v)
        | some q =>
            match pget ps "min" with
            | some (PValue.num m) =>
                if q < m then
                  some (mkErr idx f v "RANGE"
                    (f ++ "=" ++ ratStr q ++ " below minimum " ++ ratStr m))
                else rangeMaxCheck idx f v q (pget ps "max")
            | some _ => some (numericErr idx f v)
            | none => rangeMaxCheck idx f v q (pget ps "max")) := rfl

theorem applyRule_regex (idx : ℕ) (f : String) (v : Value) (ps : Params) :
    applyRule idx f v { rule_type := "regex", parameters := ps } =
      (match pget ps "pattern" with
        | some (PValue.regex p) =>
            if matchAtStart p (strOfValue v).toList then none
            else
              some (mkErr idx f v "REGEX"
                (f ++ "=" ++ strOfValue v ++ " does not match required format: "
                  ++ pvalStr (pget ps "description")))
        | _ => none) := rfl

theorem applyRule_lookup (idx : ℕ) (f : String) (v : Value) (ps : Params) :
    applyRule idx f v { rule_type := "lookup", parameters := ps } =
      (if pget ps "column" == some (PValue.str "ProductCode") &&
          !(validProducts.contains (strOfValue v)) then
        some (mkErr idx f v "LOOKUP"
          (f ++ "=" ++ strOfValue v ++ " not found in " ++ pvalStr (pget ps "table")))
      else none) := rfl

/-! ### Claims about single rule evaluation -/

/-- C3: for every non-null field value and every Range rule, coercion
failure yields exactly one NUMERIC (not RANGE) error; on coercion
success the rule yields a RANGE error iff the number is strictly below
the supplied min or strictly above the supplied max (bounds inclusive,
each bound checked only when supplied), and no error otherwise. -/
theorem range_rule_correct (idx : ℕ) (f : String) (v : Value)
    (hv : v ≠ Value.null) (mi ma : Option ℚ) :
    (coerceNum v = none →
      ∃ e, applyRule idx f v (rangeRule mi ma) = some e ∧ e.error_type = "NUMERIC") ∧
    (∀ q, coerceNum v = some q →
      ((∃ e, applyRule idx f v (rangeRule mi ma) = some e ∧ e.error_type = "RANGE") ↔
        ((∃ m, mi = some m ∧ q < m) ∨ (∃ m, ma = some m ∧ q > m))) ∧
      (¬((∃ m, mi = some m ∧ q < m) ∨ (∃ m, ma = some m ∧ q > m)) →
        applyRule idx f v (rangeRule mi ma) = none)) := by
  clear hv
  rcases mi with _ | m <;> rcases ma with _ | M
  · have hred : applyRule idx f v (rangeRule none none) =
        (match coerceNum v with
          | none => some (numericErr idx f v)
          | some _ => none) := rfl
    refine ⟨fun hc => ?_, fun q hc => ?_⟩
    · rw [hred, hc]; exact ⟨numericErr idx f v, rfl, rfl⟩
    · rw [hred, hc]; simp
  · have hred : applyRule idx f v (rangeRule none (some M)) =
        (match coerceNum v with
          | none => some (numericErr idx f v)
          | some q =>
              if q > M then
                some (mkErr idx f v "RANGE"
                  (f ++ "=" ++ ratStr q ++ " exceeds maximum " ++ ratStr M))
              else none) := rfl
    refine ⟨fun hc => ?_, fun q hc => ?_⟩
    · rw [hred, hc]; exact ⟨numericErr idx f v, rfl, rfl⟩
    · rw [hred, hc]
      by_cases hM : q > M <;> simp [hM, mkErr]
  · have hred : applyRule idx f v (rangeRule (some m) none) =
        (match coerceNum v with
          | none => some (numericErr idx f v)
          | some q =>
              if q < m then
                some (mkErr idx f v "RANGE"
                  (f ++ "=" ++ ratStr q ++ " below minimum " ++ ratStr m))
              else none) := rfl
    refine ⟨fun hc => ?_, fun q hc => ?_⟩
    · rw [hred, hc]; exact ⟨numericErr idx f v, rfl, rfl⟩
    · rw [hred, hc]
      by_cases hm : q < m <;> simp [hm, mkErr]
  · have hred : applyRule idx f v (rangeRule (some m) (some M)) =
        (match coerceNum v with
          | none => some (numericErr idx f v)
          | some q =>
              if q < m then
                some (mkErr idx f v "RANGE"
                  (f ++ "=" ++ ratStr q ++ " below minimum " ++ ratStr m))
              else if q > M then
                some (mkErr idx f v "RANGE"
                  (f ++ "=" ++ ratStr q ++ " exceeds maximum " ++ ratStr M))
              else none) := rfl
    refine ⟨fun hc => ?_, fun q hc => ?_⟩
    · rw [hred, hc]; exact ⟨numericErr idx f v, rfl, rfl⟩
    · rw [hred, hc]
      by_cases hm : q < m
      · simp [hm, mkErr]
      · by_cases hM : q > M <;> simp [hm, hM, mkErr]

/-- C3 witness: the value "abc" against a Range rule with bounds 0 and
250 coerces to no number and yields exactly a NUMERIC error. -/
theorem range_rule_correct_w :
    (Value.str "abc" ≠ Value.null) ∧
    (∃ e, applyRule 0 "t" (Value.str "abc") (rangeRule (some 0) (some 250)) = some e ∧
      e.error_type = "NUMERIC") :=
  ⟨by decide,
   (range_rule_correct 0 "t" (Value.str "abc") (by decide) (some 0) (some 250)).1 rfl⟩

/-- C6: for every non-null field value and every Regex rule carrying a
pattern, the rule yields a REGEX error iff the pattern does not match at
the start of the stringified value (prefix-match semantics via
`matchAtStart`, not full-string anchoring — witnessed by a pattern that
prefix-matches a string it does not fully match); a Regex rule without a
pattern parameter yields no error. -/
theorem regex_rule_correct (idx : ℕ) (f : String) (v : Value)
    (hv : v ≠ Value.null) (p : Regexp) :
    ((∃ e, applyRule idx f v (regexRule (some p)) = some e ∧ e.error_type = "REGEX") ↔
      matchAtStart p (strOfValue v).toList = false) ∧
    (matchAtStart p (strOfValue v).toList = true →
      applyRule idx f v (regexRule (some p)) = none) ∧
    applyRule idx f v (regexRule none) = none ∧
    (matchAtStart (Regexp.chr 'A') "A1".toList = true ∧
      rmatchFull (Regexp.chr 'A') "A1".toList = false) := by
  clear hv
  have hred : applyRule idx f v (regexRule (some p)) =
      (if matchAtStart p (strOfValue v).toList then none
       else
        some (mkErr idx f v "REGEX"
          (f ++ "=" ++ strOfValue v ++ " does not match required format: " ++ "None"))) := rfl
  refine ⟨?_, fun hm => ?_, rfl, by decide, by decide⟩
  · rw [hred]
    by_cases hm : matchAtStart p (strOfValue v).toList <;>
      simp only [String.toList] at hm <;>
      simp [hm, mkErr, String.toList]
  · rw [hred, if_pos hm]

/-- C6 witness: the value "BADLINE" against a Regex rule whose pattern
requires a leading L yields a REGEX error. -/
theorem regex_rule_correct_w :
    (Value.str "BADLINE" ≠ Value.null) ∧
    (∃ e, applyRule 0 "line_id" (Value.str "BADLINE")
      (regexRule (some (Regexp.chr 'L'))) = some e ∧ e.error_type = "REGEX") :=
  ⟨by decide,
   ((regex_rule_correct 0 "line_id" (Value.str "BADLINE") (by decide)
      (Regexp.chr 'L')).1).mpr (by decide)⟩

/-- C7 counterexample: for the Lookup rule (table "materials", column
"MaterialCode") and value "XYZ", the reference-value provider modelled
from the spec cannot resolve the pair, so the claim (membership failure,
including resolution failure, yields a LOOKUP error) demands an error —
but the code yields none: it only ever checks the hard-coded
ProductCode set. -/
theorem lookup_claim_cex :
    specLookupFails "materials" "MaterialCode" (strOfValue (Value.str "XYZ")) = true ∧
    applyRule 0 "material_code" (Value.str "XYZ")
      (lookupRule "materials" "MaterialCode") = none :=
  ⟨rfl, rfl⟩

/-- C7 amended: for every non-null field value, a Lookup rule yields a
LOOKUP error iff its column parameter is exactly "ProductCode" and the
stringified value is not in the hard-coded product set; the table
parameter is ignored, and any (table, column) pair the provider cannot
resolve yields no error. -/
theorem lookup_rule_amended (idx : ℕ) (f : String) (v : Value)
    (hv : v ≠ Value.null) (table column : String) :
    ((∃ e, applyRule idx f v (lookupRule table column) = some e ∧
        e.error_type = "LOOKUP") ↔
      (column = "ProductCode" ∧ validProducts.contains (strOfValue v) = false)) ∧
    (specRefSet table column = none →
      applyRule idx f v (lookupRule table column) = none) := by
  clear hv
  have hred : applyRule idx f v (lookupRule table column) =
      (if (some (PValue.str column) == some (PValue.str "ProductCode")) &&
          !(validProducts.contains (strOfValue v)) then
        some (mkErr idx f v "LOOKUP"
          (f ++ "=" ++ strOfValue v ++ " not found in " ++ table))
      else none) := rfl
  constructor
  · rw [hred]
    by_cases hc : column = "ProductCode"
    · subst hc
      by_cases hm : strOfValue v ∈ validProducts <;> simp [hm, mkErr]
    · have hb : (some (PValue.str column) == some (PValue.str "ProductCode")) = false := by
        simp only [beq_eq_false_iff_ne, ne_eq, Option.some.injEq, PValue.str.injEq]
        exact hc
      simp [hb, hc]
  · intro hn
    have hc : column ≠ "ProductCode" := by
      intro h
      subst h
      simp [specRefSet] at hn
    rw [hred]
    have hb : (some (PValue.str column) == some (PValue.str "ProductCode")) = false := by
      simp only [beq_eq_false_iff_ne, ne_eq, Option.some.injEq, PValue.str.injEq]
      exact hc
    simp [hb]

/-- C7 amended witness: the value "XYZ" against a Lookup rule on column
"ProductCode" yields a LOOKUP error. -/
theorem lookup_rule_amended_w :
    (Value.str "XYZ" ≠ Value.null) ∧
    (∃ e, applyRule 0 "product_code" (Value.str "XYZ")
      (lookupRule "ref_products" "ProductCode") = some e ∧ e.error_type = "LOOKUP") :=
  ⟨by decide,
   (lookup_rule_amended 0 "product_code" (Value.str "XYZ") (by decide)
      "ref_products" "ProductCode").1.mpr ⟨rfl, by decide⟩⟩

/-! ### Fatal errors: missing columns and the empty batch -/

/-- C5: when at least one declared source field is structurally missing
from the input columns, validate_dataframe aborts with the
missing-columns error before any row is validated: the result is an
error carrying the nonempty missing set, and no outcome is produced. -/
theorem missing_columns_fatal (mappings : List FieldMapping) (gvs : List GlobalRule)
    (df : DataFrame)
    (h : ∃ m ∈ mappings, df.cols.contains m.source_field = false) :
    validate_dataframe mappings gvs df =
      Except.error (FatalError.missingCols (missingColumns mappings df.cols)) ∧
    missingColumns mappings df.cols ≠ [] := by
  rcases h with ⟨m, hm, hc⟩
  have hmem : m.source_field ∈ missingColumns mappings df.cols := by
    unfold missingColumns
    rw [List.mem_dedup, List.mem_filter]
    exact ⟨List.mem_map_of_mem _ hm, by rw [hc]; rfl⟩
  have hne : missingColumns mappings df.cols ≠ [] := by
    intro he
    rw [he] at hmem
    exact (List.not_mem_nil _) hmem
  have hie : (missingColumns mappings df.cols).isEmpty = false := by
    cases he : (missingColumns mappings df.cols).isEmpty
    · rfl
    · exact absurd (List.isEmpty_iff.mp he) hne
  refine ⟨?_, hne⟩
  simp only [validate_dataframe, hie, Bool.false_eq_true, if_false]

/-- The global phase is the identity on an empty batch. -/
theorem runGlobal_empty_rows (gvs : List GlobalRule) (st : VState) :
    runGlobalValidations gvs [] st = st := by
  induction gvs generalizing st with
  | nil => rfl
  | cons g gs ih =>
      unfold runGlobalValidations
      simp only [List.foldl_cons]
      have hstep : (if g.rule_type == "duplicate_check" then
          runDupCheck (splitFields g.fields) [] st else st) = st := by
        split
        · rfl
        · rfl
      rw [hstep]
      exact ih st

/-- C10: for the empty batch (zero records, all declared columns
present), validate_dataframe raises the division-by-zero error of the
summary step rather than returning an empty partition. -/
theorem empty_batch_zero_division (mappings : List FieldMapping) (gvs : List GlobalRule)
    (cols : List String)
    (h : ∀ m ∈ mappings, cols.contains m.source_field = true) :
    validate_dataframe mappings gvs { cols := cols, rows := [] } =
      Except.error FatalError.zeroDivision := by
  have hmc : missingColumns mappings cols = [] := by
    unfold missingColumns
    have hf : (mappings.map (fun m => m.source_field)).filter
        (fun c => !(cols.contains c)) = [] := by
      rw [List.filter_eq_nil_iff]
      intro a ha
      rcases List.mem_map.mp ha with ⟨m, hm, rfl⟩
      simp only [h m hm, Bool.not_true, Bool.false_eq_true, not_false_eq_true]
    rw [hf]
    rfl
  simp only [validate_dataframe, hmc, List.isEmpty_nil, if_true]
  rw [runGlobal_empty_rows]
  rfl

/-- C10 witness: a concrete schema with one declared column present in
the (empty) input. -/
theorem empty_batch_zero_division_w :
    (∀ m ∈ exMappings, exCols.contains m.source_field = true) ∧
    validate_dataframe exMappings exGvs { cols := exCols, rows := [] } =
      Except.error FatalError.zeroDivision :=
  ⟨by decide,
   empty_batch_zero_division exMappings exGvs exCols (by decide)⟩

/-! ### Field attribution of errors (toward the required-field claim) -/

theorem rangeMaxCheck_field {idx : ℕ} {f : String} {v : Value} {q : ℚ}
    {mx : Option PValue} {e : ValidationError}
    (h : rangeMaxCheck idx f v q mx = some e) : e.field_name = f := by
  unfold rangeMaxCheck at h
  repeat split at h
  all_goals first
    | (cases h; rfl)
    | exact Option.noConfusion h

theorem dateMaxCheck_field {idx : ℕ} {f : String} {v : Value} {d : ℕ}
    {mx : Option PValue} {e : ValidationError}
    (h : dateMaxCheck idx f v d mx = some e) : e.field_name = f := by
  unfold dateMaxCheck at h
  iterate 8 (all_goals try split at h)
  all_goals first
    | (cases h; rfl)
    | exact Option.noConfusion h

theorem applyDateRange_field {idx : ℕ} {f : String} {v : Value}
    {ps : Params} {e : ValidationError}
    (h : applyDateRange idx f v ps = some e) : e.field_name = f := by
  unfold applyDateRange at h
  iterate 8 (all_goals try split at h)
  all_goals first
    | (cases h; rfl)
    | exact Option.noConfusion h
    | exact dateMaxCheck_field h

theorem applyRule_field {idx : ℕ} {f : String} {v : Value}
    {rule : ValidationRule} {e : ValidationError}
    (h : applyRule idx f v rule = some e) : e.field_name = f := by
  unfold applyRule at h
  iterate 8 (all_goals try split at h)
  all_goals first
    | (cases h; rfl)
    | exact Option.noConfusion h
    | exact rangeMaxCheck_field h
    | exact applyDateRange_field h

theorem fieldErrors_field {idx : ℕ} {row : Record} {m : FieldMapping}
    {e : ValidationError} (h : e ∈ fieldErrors idx row m) :
    e.field_name = m.source_field := by
  unfold fieldErrors at h
  dsimp only at h
  iterate 3 (all_goals try split at h)
  all_goals first
    | (rcases List.mem_singleton.mp h with rfl; rfl)
    | exact absurd h (List.not_mem_nil _)
    | (rcases List.mem_filterMap.mp h with ⟨r, hr1, hr⟩
       exact applyRule_field hr)

theorem validateRow_cons (m : FieldMapping) (ms : List FieldMapping)
    (idx : ℕ) (row : Record) :
    validateRow (m :: ms) idx row = fieldErrors idx row m ++ validateRow ms idx row := by
  unfold validateRow
  rw [List.map_cons, List.flatten_cons]

/-- Mappings whose source field differs from s contribute no error whose
field name is s. -/
theorem validateRow_filter_other (idx : ℕ) (row : Record) (s : String)
    (ms : List FieldMapping) (h : ∀ x ∈ ms, x.source_field ≠ s) :
    (validateRow ms idx row).filter (fun e => e.field_name == s) = [] := by
  induction ms with
  | nil => rfl
  | cons m ms ih =>
      rw [validateRow_cons, List.filter_append]
      rw [ih (fun x hx => h x (List.mem_cons_of_mem _ hx)), List.append_nil]
      rw [List.filter_eq_nil_iff]
      intro e he hbe
      exact h m (List.mem_cons_self _ _)
        ((fieldErrors_field he) ▸ (eq_of_beq hbe))

/-- C4: for every record and schema field whose value is null/absent
(with source fields unique in the schema): if the field is required,
row validation emits exactly one REQUIRED_FIELD_MISSING error for that
field and nothing else for it; if the field is optional, it emits no
error at all for that field. -/
theorem required_null_semantics (mappings : List FieldMapping) (idx : ℕ)
    (row : Record) (m : FieldMapping) (hm : m ∈ mappings)
    (hnd : (mappings.map (fun x => x.source_field)).Nodup)
    (hv : getField row m.source_field = Value.null) :
    (m.required = true →
      (validateRow mappings idx row).filter (fun e => e.field_name == m.source_field) =
        [mkErr idx m.source_field Value.null "REQUIRED_FIELD_MISSING"
          ("Required field " ++ m.source_field ++ " is empty")]) ∧
    (m.required = false →
      (validateRow mappings idx row).filter
        (fun e => e.field_name == m.source_field) = []) := by
  induction mappings with
  | nil => exact absurd hm (List.not_mem_nil _)
  | cons m0 ms ih =>
      rw [List.map_cons, List.nodup_cons] at hnd
      rcases List.mem_cons.mp hm with rfl | hm2
      · have hrest : (validateRow ms idx row).filter
            (fun e => e.field_name == m.source_field) = [] := by
          apply validateRow_filter_other
          intro x hx hxe
          exact hnd.1 (hxe ▸ List.mem_map_of_mem _ hx)
        have hfe1 : m.required = true → fieldErrors idx row m =
            [mkErr idx m.source_field Value.null "REQUIRED_FIELD_MISSING"
              ("Required field " ++ m.source_field ++ " is empty")] := by
          intro hr
          unfold fieldErrors
          dsimp only
          rw [hv, hr]
          rfl
        have hfe2 : m.required = false → fieldErrors idx row m = [] := by
          intro hr
          unfold fieldErrors
          dsimp only
          rw [hv, hr]
          rfl
        refine ⟨fun hr => ?_, fun hr => ?_⟩
        · rw [validateRow_cons, List.filter_append, hrest, List.append_nil, hfe1 hr]
          simp [mkErr]
        · rw [validateRow_cons, List.filter_append, hrest, List.append_nil, hfe2 hr]
          rfl
      · have hne : m0.source_field ≠ m.source_field := by
          intro he
          exact hnd.1 (he ▸ List.mem_map_of_mem _ hm2)
        have hhead : (fieldErrors idx row m0).filter
            (fun e => e.field_name == m.source_field) = [] := by
          rw [List.filter_eq_nil_iff]
          intro e he hbe
          exact hne ((fieldErrors_field he) ▸ (eq_of_beq hbe))
        have htail := ih hm2 hnd.2
        refine ⟨fun hr => ?_, fun hr => ?_⟩
        · rw [validateRow_cons, List.filter_append, hhead, List.nil_append]
          exact htail.1 hr
        · rw [validateRow_cons, List.filter_append, hhead, List.nil_append]
          exact htail.2 hr

/-- C4 witness: the example row, whose required field a is null, yields
exactly the one REQUIRED_FIELD_MISSING error for field a. -/
theorem required_null_semantics_w :
    (mapA ∈ exMappings) ∧ (getField exRow mapA.source_field = Value.null) ∧
    (validateRow exMappings 7 exRow).filter
        (fun e => e.field_name == mapA.source_field) =
      [mkErr 7 mapA.source_field Value.null "REQUIRED_FIELD_MISSING"
        ("Required field " ++ mapA.source_field ++ " is empty")] :=
  ⟨by decide, rfl,
   (required_null_semantics exMappings 7 exRow mapA (by decide) (by decide) rfl).1 rfl⟩

/-- C5 witness: a batch missing declared column a aborts with the
missing-columns error. -/
theorem missing_columns_fatal_w :
    (∃ m ∈ exMappings, (["b"] : List String).contains m.source_field = false) ∧
    validate_dataframe exMappings exGvs { cols := ["b"], rows := [] } =
      Except.error (FatalError.missingCols (missingColumns exMappings ["b"])) :=
  ⟨⟨mapA, by decide, by decide⟩,
   (missing_columns_fatal exMappings exGvs { cols := ["b"], rows := [] }
      ⟨mapA, by decide, by decide⟩).1⟩

/-! ### Row-phase invariants -/

theorem stepRow_mem (mappings : List FieldMapping) (st : VState) (idx : ℕ)
    (r : Record) (i : ℕ) :
    (i ∈ (stepRow mappings st idx r).valid_rows ∨
      i ∈ (stepRow mappings st idx r).invalid_rows) ↔
      (i ∈ st.valid_rows ∨ i ∈ st.invalid_rows ∨ i = idx) := by
  unfold stepRow
  dsimp only
  split <;> simp only [List.mem_append, List.mem_singleton] <;> tauto

theorem rowPhaseAux_mem (mappings : List FieldMapping) (rs : List Record) :
    ∀ (idx : ℕ) (st : VState) (i : ℕ),
    (i ∈ (rowPhaseAux mappings idx rs st).valid_rows ∨
      i ∈ (rowPhaseAux mappings idx rs st).invalid_rows) ↔
      (i ∈ st.valid_rows ∨ i ∈ st.invalid_rows ∨ (idx ≤ i ∧ i < idx + rs.length)) := by
  induction rs with
  | nil =>
      intro idx st i
      unfold rowPhaseAux
      constructor
      · intro h
        rcases h with h | h
        · exact Or.inl h
        · exact Or.inr (Or.inl h)
      · rintro (h | h | h)
        · exact Or.inl h
        · exact Or.inr h
        · rcases h with ⟨h1, h2⟩
          rw [List.length_nil] at h2
          exact absurd h2 (by omega)
  | cons r rs ih =>
      intro idx st i
      unfold rowPhaseAux
      rw [ih (idx + 1) (stepRow mappings st idx r) i]
      have h1 := stepRow_mem mappings st idx r i
      constructor
      · rintro (h | h | h)
        · rcases h1.mp (Or.inl h) with h2 | h2 | h2
          · exact Or.inl h2
          · exact Or.inr (Or.inl h2)
          · subst h2
            refine Or.inr (Or.inr ?_)
            constructor
            · omega
            · simp only [List.length_cons]
              omega
        · rcases h1.mp (Or.inr h) with h2 | h2 | h2
          · exact Or.inl h2
          · exact Or.inr (Or.inl h2)
          · subst h2
            refine Or.inr (Or.inr ?_)
            constructor
            · omega
            · simp only [List.length_cons]
              omega
        · refine Or.inr (Or.inr ?_)
          simp only [List.length_cons]
          omega
      · rintro (h | h | h)
        · rcases h1.mpr (Or.inl h) with h2 | h2
          · exact Or.inl h2
          · exact Or.inr (Or.inl h2)
        · rcases h1.mpr (Or.inr (Or.inl h)) with h2 | h2
          · exact Or.inl h2
          · exact Or.inr (Or.inl h2)
        · by_cases hi : i = idx
          · rcases h1.mpr (Or.inr (Or.inr hi)) with h2 | h2
            · exact Or.inl h2
            · exact Or.inr (Or.inl h2)
          · refine Or.inr (Or.inr ?_)
            simp only [List.length_cons] at h
            omega

theorem stepRow_good {st : VState} (mappings : List FieldMapping) (idx : ℕ)
    (r : Record) (h : GoodSt idx st) :
    GoodSt (idx + 1) (stepRow mappings st idx r) := by
  rcases h with ⟨hbv, hbi, hsv, hsi, hd⟩
  unfold stepRow
  dsimp only
  split <;> dsimp only [GoodSt] <;>
    refine ⟨?_, ?_, ?_, ?_, ?_⟩
  · intro j hj
    rcases List.mem_append.mp hj with hj | hj
    · exact Nat.lt_succ_of_lt (hbv j hj)
    · rw [List.mem_singleton.mp hj]
      omega
  · intro j hj
    exact Nat.lt_succ_of_lt (hbi j hj)
  · exact List.pairwise_append.mpr ⟨hsv, List.pairwise_singleton _ _,
      fun a ha b hb => (List.mem_singleton.mp hb) ▸ (hbv a ha)⟩
  · exact hsi
  · intro j hjv hji
    rcases List.mem_append.mp hjv with hj | hj
    · exact hd j hj hji
    · rw [List.mem_singleton.mp hj] at hji
      exact absurd (hbi idx hji) (by omega)
  · intro j hj
    exact Nat.lt_succ_of_lt (hbv j hj)
  · intro j hj
    rcases List.mem_append.mp hj with hj | hj
    · exact Nat.lt_succ_of_lt (hbi j hj)
    · rw [List.mem_singleton.mp hj]
      omega
  · exact hsv
  · exact List.pairwise_append.mpr ⟨hsi, List.pairwise_singleton _ _,
      fun a ha b hb => (List.mem_singleton.mp hb) ▸ (hbi a ha)⟩
  · intro j hjv hji
    rcases List.mem_append.mp hji with hj | hj
    · exact hd j hjv hj
    · rw [List.mem_singleton.mp hj] at hjv
      exact absurd (hbv idx hjv) (by omega)

theorem rowPhaseAux_good (mappings : List FieldMapping) (rs : List Record) :
    ∀ (idx : ℕ) (st : VState), GoodSt idx st →
      GoodSt (idx + rs.length) (rowPhaseAux mappings idx rs st) := by
  induction rs with
  | nil =>
      intro idx st h
      simpa using h
  | cons r rs ih =>
      intro idx st h
      have h2 := ih (idx + 1) (stepRow mappings st idx r) (stepRow_good mappings idx r h)
      unfold rowPhaseAux
      have harith : idx + 1 + rs.length = idx + (r :: rs).length := by
        simp only [List.length_cons]
        omega
      rw [harith] at h2
      exact h2

theorem rowPhase_good (mappings : List FieldMapping) (rows : List Record) :
    GoodSt rows.length (rowPhase mappings rows) := by
  have h0 : GoodSt 0 { errors := [], valid_rows := [], invalid_rows := [] } := by
    refine ⟨?_, ?_, ?_, ?_, ?_⟩ <;> simp
  have := rowPhaseAux_good mappings rows 0
    { errors := [], valid_rows := [], invalid_rows := [] } h0
  simpa [rowPhase] using this

theorem rowPhase_mem (mappings : List FieldMapping) (rows : List Record) (i : ℕ) :
    (i ∈ (rowPhase mappings rows).valid_rows ∨
      i ∈ (rowPhase mappings rows).invalid_rows) ↔ i < rows.length := by
  have := rowPhaseAux_mem mappings rows 0
    { errors := [], valid_rows := [], invalid_rows := [] } i
  simpa [rowPhase] using this

theorem rowPhase_partitioned (mappings : List FieldMapping) (rows : List Record) :
    Partitioned rows.length (rowPhase mappings rows) := by
  rcases rowPhase_good mappings rows with ⟨_, _, hsv, hsi, hd⟩
  exact ⟨rowPhase_mem mappings rows, hd, hsv.nodup, hsi.nodup⟩

/-! ### Global-phase (duplicate demotion) lemmas -/

theorem runGlobal_cons (g : GlobalRule) (gs : List GlobalRule)
    (rows : List Record) (st : VState) :
    runGlobalValidations (g :: gs) rows st =
      runGlobalValidations gs rows
        (if g.rule_type == "duplicate_check" then
          runDupCheck (splitFields g.fields) rows st
        else st) := rfl

theorem dupStep_invalid_mono (fields : List String) (st : VState) (idx : ℕ)
    {i : ℕ} (h : i ∈ st.invalid_rows) :
    i ∈ (dupStep fields st idx).invalid_rows := by
  unfold dupStep
  split
  · exact h
  · exact List.mem_append_left _ h

theorem dupStep_self_invalid (fields : List String) (st : VState) (idx : ℕ) :
    idx ∈ (dupStep fields st idx).invalid_rows := by
  unfold dupStep
  split
  · next hc => exact List.mem_of_elem_eq_true hc
  · exact List.mem_append_right _ (List.mem_singleton.mpr rfl)

theorem foldl_dupStep_invalid_mono (fields : List String) (l : List ℕ) :
    ∀ (st : VState) (i : ℕ), i ∈ st.invalid_rows →
      i ∈ (l.foldl (dupStep fields) st).invalid_rows := by
  induction l with
  | nil => intro st i h; exact h
  | cons a l ih =>
      intro st i h
      exact ih _ _ (dupStep_invalid_mono fields st a h)

theorem runGlobal_invalid_mono (gvs : List GlobalRule) (rows : List Record) :
    ∀ (st : VState) (i : ℕ), i ∈ st.invalid_rows →
      i ∈ (runGlobalValidations gvs rows st).invalid_rows := by
  induction gvs with
  | nil => intro st i h; exact h
  | cons g gs ih =>
      intro st i h
      rw [runGlobal_cons]
      apply ih
      split
      · exact foldl_dupStep_invalid_mono _ _ _ _ h
      · exact h

theorem dupStep_valid_sublist (fields : List String) (st : VState) (idx : ℕ) :
    ((dupStep fields st idx).valid_rows).Sublist st.valid_rows := by
  unfold dupStep
  split
  · exact List.Sublist.refl _
  · exact List.erase_sublist _ _

theorem foldl_dupStep_valid_sublist (fields : List String) (l : List ℕ) :
    ∀ st : VState, ((l.foldl (dupStep fields) st).valid_rows).Sublist st.valid_rows := by
  induction l with
  | nil => intro st; exact List.Sublist.refl _
  | cons a l ih =>
      intro st
      exact (ih _).trans (dupStep_valid_sublist fields st a)

theorem runGlobal_valid_sublist (gvs : List GlobalRule) (rows : List Record) :
    ∀ st : VState, ((runGlobalValidations gvs rows st).valid_rows).Sublist st.valid_rows := by
  induction gvs with
  | nil => intro st; exact List.Sublist.refl _
  | cons g gs ih =>
      intro st
      rw [runGlobal_cons]
      refine (ih _).trans ?_
      split
      · exact foldl_dupStep_valid_sublist _ _ _
      · exact List.Sublist.refl _

theorem dupStep_invalid_eq (fields : List String) (st : VState) (idx : ℕ) :
    (dupStep fields st idx).invalid_rows = st.invalid_rows ∨
    (dupStep fields st idx).invalid_rows = st.invalid_rows ++ [idx] := by
  unfold dupStep
  split
  · exact Or.inl rfl
  · exact Or.inr rfl

theorem foldl_dupStep_invalid_append (fields : List String) (l : List ℕ) :
    ∀ st : VState, ∃ ds, (l.foldl (dupStep fields) st).invalid_rows =
      st.invalid_rows ++ ds := by
  induction l with
  | nil => intro st; exact ⟨[], (List.append_nil _).symm⟩
  | cons a l ih =>
      intro st
      rcases ih (dupStep fields st a) with ⟨ds, hds⟩
      rcases dupStep_invalid_eq fields st a with he | he
      · exact ⟨ds, by rw [List.foldl_cons, hds, he]⟩
      · exact ⟨[a] ++ ds, by rw [List.foldl_cons, hds, he, List.append_assoc]⟩

theorem runGlobal_invalid_append (gvs : List GlobalRule) (rows : List Record) :
    ∀ st : VState, ∃ ds, (runGlobalValidations gvs rows st).invalid_rows =
      st.invalid_rows ++ ds := by
  induction gvs with
  | nil => intro st; exact ⟨[], (List.append_nil _).symm⟩
  | cons g gs ih =>
      intro st
      rw [runGlobal_cons]
      split
      · rcases foldl_dupStep_invalid_append (splitFields g.fields)
          (dupIndices (splitFields g.fields) rows) st with ⟨ds1, hds1⟩
        rcases ih ((dupIndices (splitFields g.fields) rows).foldl
          (dupStep (splitFields g.fields)) st) with ⟨ds2, hds2⟩
        refine ⟨ds1 ++ ds2, ?_⟩
        unfold runDupCheck
        rw [hds2, hds1, List.append_assoc]
      · exact ih st

theorem dupStep_partitioned {n : ℕ} (fields : List String) {st : VState} {idx : ℕ}
    (hidx : idx < n) (h : Partitioned n st) :
    Partitioned n (dupStep fields st idx) := by
  rcases h with ⟨hiff, hd, hnv, hni⟩
  unfold dupStep
  split
  · exact ⟨hiff, hd, hnv, hni⟩
  · next hc =>
      have hnotin : idx ∉ st.invalid_rows := fun hmem =>
        hc (List.elem_eq_true_of_mem hmem)
      dsimp only [Partitioned]
      refine ⟨?_, ?_, ?_, ?_⟩
      · intro i
        constructor
        · rintro (hv | hi)
          · exact (hiff i).mp (Or.inl ((List.erase_sublist _ _).subset hv))
          · rcases List.mem_append.mp hi with hi | hi
            · exact (hiff i).mp (Or.inr hi)
            · rw [List.mem_singleton.mp hi]
              exact hidx
        · intro hlt
          rcases (hiff i).mpr hlt with hv | hi
          · by_cases hii : i = idx
            · exact Or.inr (List.mem_append_right _ (List.mem_singleton.mpr hii))
            · exact Or.inl ((hnv.mem_erase_iff.mpr ⟨hii, hv⟩))
          · exact Or.inr (List.mem_append_left _ hi)
      · intro i hv hi
        rcases hnv.mem_erase_iff.mp hv with ⟨hne, hv2⟩
        rcases List.mem_append.mp hi with hi | hi
        · exact hd i hv2 hi
        · exact hne (List.mem_singleton.mp hi)
      · exact hnv.erase _
      · exact List.nodup_append.mpr ⟨hni, List.nodup_singleton _,
          fun a ha hb => hnotin ((List.mem_singleton.mp hb) ▸ ha)⟩

theorem dupIndices_lt (fields : List String) (rows : List Record) :
    ∀ i ∈ dupIndices fields rows, i < rows.length := by
  intro i hi
  unfold dupIndices at hi
  dsimp only at hi
  exact List.mem_range.mp (List.mem_filter.mp hi).1

theorem foldl_dupStep_partitioned {n : ℕ} (fields : List String) (l : List ℕ)
    (hl : ∀ i ∈ l, i < n) :
    ∀ st : VState, Partitioned n st → Partitioned n (l.foldl (dupStep fields) st) := by
  induction l with
  | nil => intro st h; exact h
  | cons a l ih =>
      intro st h
      exact ih (fun i hi => hl i (List.mem_cons_of_mem _ hi)) _
        (dupStep_partitioned fields (hl a (List.mem_cons_self _ _)) h)

theorem runGlobal_partitioned (gvs : List GlobalRule) (rows : List Record) :
    ∀ st : VState, Partitioned rows.length st →
      Partitioned rows.length (runGlobalValidations gvs rows st) := by
  induction gvs with
  | nil => intro st h; exact h
  | cons g gs ih =>
      intro st h
      rw [runGlobal_cons]
      apply ih
      split
      · exact foldl_dupStep_partitioned _ _ (dupIndices_lt _ rows) st h
      · exact h

theorem foldl_dupStep_covers (fields : List String) (l : List ℕ) :
    ∀ (st : VState) (i : ℕ), i ∈ l →
      i ∈ (l.foldl (dupStep fields) st).invalid_rows := by
  induction l with
  | nil => intro st i h; exact absurd h (List.not_mem_nil _)
  | cons a l ih =>
      intro st i h
      rcases List.mem_cons.mp h with rfl | h2
      · exact foldl_dupStep_invalid_mono fields l _ _ (dupStep_self_invalid fields st i)
      · exact ih _ _ h2

theorem foldl_dupStep_id (fields : List String) (l : List ℕ) :
    ∀ st : VState, (∀ i ∈ l, i ∈ st.invalid_rows) →
      l.foldl (dupStep fields) st = st := by
  induction l with
  | nil => intro st _; rfl
  | cons a l ih =>
      intro st h
      have hc : st.invalid_rows.contains a = true :=
        List.elem_eq_true_of_mem (h a (List.mem_cons_self _ _))
      have ha : dupStep fields st a = st := by
        unfold dupStep
        rw [if_pos hc]
      rw [List.foldl_cons, ha]
      exact ih st (fun i hi => h i (List.mem_cons_of_mem _ hi))

theorem runGlobal_covers (gvs : List GlobalRule) (rows : List Record) :
    ∀ (st : VState) (g : GlobalRule), g ∈ gvs →
      (g.rule_type == "duplicate_check") = true →
      ∀ i ∈ dupIndices (splitFields g.fields) rows,
        i ∈ (runGlobalValidations gvs rows st).invalid_rows := by
  induction gvs with
  | nil => intro st g hg; exact absurd hg (List.not_mem_nil _)
  | cons g0 gs ih =>
      intro st g hg hgt i hi
      rw [runGlobal_cons]
      rcases List.mem_cons.mp hg with rfl | hg2
      · apply runGlobal_invalid_mono
        rw [if_pos hgt]
        exact foldl_dupStep_covers _ _ _ _ hi
      · exact ih _ g hg2 hgt i hi

theorem runGlobal_id (gvs : List GlobalRule) (rows : List Record) :
    ∀ st : VState,
      (∀ g ∈ gvs, (g.rule_type == "duplicate_check") = true →
        ∀ i ∈ dupIndices (splitFields g.fields) rows, i ∈ st.invalid_rows) →
      runGlobalValidations gvs rows st = st := by
  induction gvs with
  | nil => intro st _; rfl
  | cons g gs ih =>
      intro st h
      rw [runGlobal_cons]
      have hstep : (if g.rule_type == "duplicate_check" then
          runDupCheck (splitFields g.fields) rows st else st) = st := by
        by_cases hg : (g.rule_type == "duplicate_check") = true
        · rw [if_pos hg]
          exact foldl_dupStep_id _ _ _ (h g (List.mem_cons_self _ _) hg)
        · rw [if_neg hg]
      rw [hstep]
      exact ih st (fun g2 hg2 => h g2 (List.mem_cons_of_mem _ hg2))

/-- The state carried by a successful validate_dataframe call is the
global phase applied to the row phase, and the returned selections are
taken from the caller-supplied batch by the final index lists. -/
theorem validate_ok_state (mappings : List FieldMapping) (gvs : List GlobalRule)
    (df : DataFrame) (out : Outcome)
    (h : validate_dataframe mappings gvs df = Except.ok out) :
    out.state = runGlobalValidations gvs df.rows (rowPhase mappings df.rows) ∧
    out.valid_df = selectRows df.rows out.state.valid_rows ∧
    out.invalid_df = selectRows df.rows out.state.invalid_rows := by
  unfold validate_dataframe at h
  dsimp only at h
  split at h
  · split at h
    · exact absurd h (by simp)
    · cases h
      exact ⟨rfl, rfl, rfl⟩
  · exact absurd h (by simp)

/-! ### The partition, monotonicity and ordering claims -/

/-- C1: after a completed validate_dataframe call (row validation
followed by dataset-level duplicate demotion), the valid and invalid
index sets are disjoint and together cover exactly the full index range
of the input records. -/
theorem partition_after_validation (mappings : List FieldMapping)
    (gvs : List GlobalRule) (df : DataFrame) (out : Outcome)
    (h : validate_dataframe mappings gvs df = Except.ok out) :
    (∀ i, (i ∈ out.state.valid_rows ∨ i ∈ out.state.invalid_rows) ↔
      i < df.rows.length) ∧
    (∀ i, i ∈ out.state.valid_rows → i ∈ out.state.invalid_rows → False) := by
  have hst := (validate_ok_state mappings gvs df out h).1
  have hp : Partitioned df.rows.length out.state := by
    rw [hst]
    exact runGlobal_partitioned gvs df.rows _ (rowPhase_partitioned mappings df.rows)
  exact ⟨hp.1, hp.2.1⟩

/-- C1 witness: the example batch completes and its three indices are
partitioned by the two sets. -/
theorem partition_after_validation_w :
    validate_dataframe exMappings exGvs exDF = Except.ok exOut ∧
    ((1 ∈ exOut.state.valid_rows ∨ 1 ∈ exOut.state.invalid_rows) ↔
      1 < exDF.rows.length) :=
  ⟨rfl, (partition_after_validation exMappings exGvs exDF exOut rfl).1 1⟩

/-- C2: the dataset-level phase only moves indices from valid to
invalid (invalid indices are preserved, and every final valid index was
already valid), and it is idempotent: running it again on its own
output changes nothing — valid set, invalid set and error list
included. -/
theorem global_monotone_idempotent (gvs : List GlobalRule) (rows : List Record)
    (st : VState) :
    (∀ i ∈ st.invalid_rows, i ∈ (runGlobalValidations gvs rows st).invalid_rows) ∧
    (∀ i ∈ (runGlobalValidations gvs rows st).valid_rows, i ∈ st.valid_rows) ∧
    runGlobalValidations gvs rows (runGlobalValidations gvs rows st) =
      runGlobalValidations gvs rows st := by
  refine ⟨fun i h => runGlobal_invalid_mono gvs rows st i h,
    fun i h => (runGlobal_valid_sublist gvs rows st).subset h, ?_⟩
  apply runGlobal_id
  intro g hg hgt i hi
  exact runGlobal_covers gvs rows st g hg hgt i hi

/-- C8 counterexample: on the example batch the demoted duplicate
indices 0 and 2 are appended after the row-phase invalid index 1, so
the final invalid selection lists the records in order 1, 0, 2 — not
the batch order 0, 1, 2 that order preservation demands for this index
set. -/
theorem order_claim_cex :
    (validate_dataframe exMappings exGvs exDF).toOption.map
        (fun o => o.state.invalid_rows) = some [1, 0, 2] ∧
    ¬ List.Sorted (fun a b => a < b) [1, 0, 2] ∧
    (List.range exDF.rows.length).filter
        (fun i => [1, 0, 2].contains i) = [0, 1, 2] :=
  ⟨rfl, by decide, by decide⟩

/-- C8 amended: the final valid selection always lists records in batch
order; the invalid selection lists the row-phase invalid records in
batch order and then the demoted duplicates appended after them, so its
overall order agrees with the batch whenever the dataset-level phase
demotes nothing, but may deviate when a demoted index precedes a
row-phase invalid index. -/
theorem order_preservation_amended (mappings : List FieldMapping)
    (gvs : List GlobalRule) (df : DataFrame) :
    List.Sorted (fun a b => a < b)
      (runGlobalValidations gvs df.rows (rowPhase mappings df.rows)).valid_rows ∧
    List.Sorted (fun a b => a < b) (rowPhase mappings df.rows).invalid_rows ∧
    (∃ ds, (runGlobalValidations gvs df.rows (rowPhase mappings df.rows)).invalid_rows =
      (rowPhase mappings df.rows).invalid_rows ++ ds) ∧
    (∀ out, validate_dataframe mappings gvs df = Except.ok out →
      out.state = runGlobalValidations gvs df.rows (rowPhase mappings df.rows) ∧
      out.valid_df = selectRows df.rows out.state.valid_rows ∧
      out.invalid_df = selectRows df.rows out.state.invalid_rows) := by
  rcases rowPhase_good mappings df.rows with ⟨_, _, hsv, hsi, _⟩
  refine ⟨?_, hsi, ?_, ?_⟩
  · exact List.Pairwise.sublist (runGlobal_valid_sublist gvs df.rows _) hsv
  · exact runGlobal_invalid_append gvs df.rows _
  · intro out h
    exact validate_ok_state mappings gvs df out h

end MDIT
